import Mathlib

/-!
Verification of the DOM-node core of a terminal UI toolkit
(`src/textual/dom.py`) and its button widget
(`src/textual/widgets/_button.py`).

The Python classes are shallowly embedded: mutable objects become records,
object mutation becomes functional update, a raised exception becomes an
error value paired with the (unchanged) state, and generators become lists.
-/

namespace Textual

/-! ## Heap model for parent/child mutation (`DOMNode.add_child`, `add_children`, the `id` setter)

Nodes live in a heap indexed by `NodeId`; each node record carries the
fields of `DOMNode` that these operations touch: `_id`, `_parent` and
`children`. -/

abbrev NodeId := Nat

/-- The fields of a `DOMNode` touched by composition operations:
`_id : str | None`, `_parent` (a reference to another node, or `None`),
and the ordered `children` list. -/
structure NodeRec where
  id : Option String
  parent : Option NodeId
  childList : List NodeId
deriving DecidableEq

/-- The heap: every `NodeId` maps to a node record. -/
def Dom := NodeId → NodeRec

/-- Functional update of one node record in the heap. -/
def Dom.update (d : Dom) (i : NodeId) (r : NodeRec) : Dom :=
  fun j => if j = i then r else d j

/-- `ValueError` raised by the `id` setter when the id was already set;
it reports the current id (`current id={self._id!r}`). -/
structure IdentityConflict where
  current : String
deriving DecidableEq

/-- `DOMNode.id` setter: raises when `self._id is not None`, otherwise
stores the new id.  A raise leaves the object untouched, so the result
pairs the optional error with the (possibly updated) record. -/
def id_set (node : NodeRec) (new_id : String) : Option IdentityConflict × NodeRec :=
  match node.id with
  | some current => (some ⟨current⟩, node)
  | none => (none, { node with id := some new_id })

/-- Modelled from the spec: `NodeList._append` (the node-collection
`append`, whose source file is not under `src/`) adds the node at the end
of the ordered children container, preserving insertion order. -/
def appendChild (d : Dom) (p c : NodeId) : Dom :=
  d.update p { d p with childList := (d p).childList ++ [c] }

/-- `DOMNode.add_child`: `self.children._append(node)` then
`node.set_parent(self)`. -/
def add_child (d : Dom) (p c : NodeId) : Dom :=
  let d1 := appendChild d p c
  d1.update c { d1 c with parent := some p }

/-- The keyword-argument loop of `DOMNode.add_children`: append each named
node then assign it the keyword name as id; a raise from the id setter
aborts the loop, keeping the mutations already made. -/
def add_children_named (p : NodeId) :
    List (String × NodeId) → Dom → Option IdentityConflict × Dom
  | [], d => (none, d)
  | (node_id, n) :: rest, d =>
      let d1 := appendChild d p n
      match id_set (d1 n) node_id with
      | (some e, _) => (some e, d1)
      | (none, r) => add_children_named p rest (d1.update n r)

/-- `DOMNode.add_children`: positional nodes are only appended
(`_append(node)`); keyword nodes are appended and given the argument name
as id (`node.id = node_id`). -/
def add_children (d : Dom) (p : NodeId) (nodes : List NodeId)
    (named_nodes : List (String × NodeId)) : Option IdentityConflict × Dom :=
  add_children_named p named_nodes (nodes.foldl (fun acc n => appendChild acc p n) d)

/-! ## Style setters (`DOMNode.display`, `DOMNode.visible`) -/

/-- The style fields these setters write (`styles.display`,
`styles.visibility`). -/
structure StylesRec where
  display : String
  visibility : String
deriving DecidableEq

/-- A Python `bool | str` argument. -/
inductive PyVal where
  | bool (b : Bool)
  | str (s : String)
deriving DecidableEq

/-- Modelled from the spec: `VALID_DISPLAY` (from `css/constants.py`, not
under `src/`) is the fixed enumerated set of legal `display` values; the
boolean sugar maps onto the two canonical members "block" and "none". -/
def VALID_DISPLAY : List String := ["block", "none"]

/-- Modelled from the spec: `VALID_VISIBILITY` (from `css/constants.py`,
not under `src/`) is the fixed enumerated set of legal `visibility`
values; the boolean sugar maps onto "visible" and "hidden". -/
def VALID_VISIBILITY : List String := ["visible", "hidden"]

/-- `StyleValueError`: the message names the property, the offending
value received and the allowed set (via `friendly_list`). -/
structure StyleValueError where
  property : String
  received : String
  expected : List String
deriving DecidableEq

/-- `DOMNode.display` setter: a bool stores "block"/"none"; a string in
`VALID_DISPLAY` is stored; any other string raises `StyleValueError`,
leaving the styles untouched. -/
def display_set (styles : StylesRec) (new_val : PyVal) :
    Option StyleValueError × StylesRec :=
  match new_val with
  | .bool b => (none, { styles with display := if b then "block" else "none" })
  | .str s =>
      if s ∈ VALID_DISPLAY then (none, { styles with display := s })
      else (some ⟨"display", s, VALID_DISPLAY⟩, styles)

/-- `DOMNode.visible` setter: a bool stores "visible"/"hidden"; a string
in `VALID_VISIBILITY` is stored; any other value raises
`StyleValueError`, leaving the styles untouched. -/
def visible_set (styles : StylesRec) (new_value : PyVal) :
    Option StyleValueError × StylesRec :=
  match new_value with
  | .bool b => (none, { styles with visibility := if b then "visible" else "hidden" })
  | .str s =>
      if s ∈ VALID_VISIBILITY then (none, { styles with visibility := s })
      else (some ⟨"visibility", s, VALID_VISIBILITY⟩, styles)

/-! ## Class mutation (`add_class`, `remove_class`, `toggle_class`) -/

/-- Modelled from the spec: the application context reached through
`self.app` (defined outside `src/`); `stylesheet.update` recomputes
styles for the whole application tree, counted here. -/
structure AppCtx where
  stylesheet_updates : Nat
deriving DecidableEq

/-- A node as seen by the class-mutation methods: its `_classes` set and
the optional application context; `repaints` counts `refresh` requests. -/
structure ClassNode where
  classes : Finset String
  app : Option AppCtx
  repaints : Nat
deriving DecidableEq

/-- The `try: self.app.stylesheet.update(...); self.refresh() except
LookupError: pass` block shared by the three class mutators: with an
attached app the stylesheet is updated and a repaint requested; with no
app the `LookupError` is swallowed and nothing happens. -/
def class_update_styles (node : ClassNode) : ClassNode :=
  match node.app with
  | some ctx =>
      { node with app := some ⟨ctx.stylesheet_updates + 1⟩, repaints := node.repaints + 1 }
  | none => node

/-- `DOMNode.add_class`: `self._classes.update(class_names)` then the
best-effort style update. -/
def add_class (node : ClassNode) (class_names : List String) : ClassNode :=
  class_update_styles { node with classes := node.classes ∪ class_names.toFinset }

/-- `DOMNode.remove_class`: `self._classes.difference_update(class_names)`
then the best-effort style update. -/
def remove_class (node : ClassNode) (class_names : List String) : ClassNode :=
  class_update_styles { node with classes := node.classes \ class_names.toFinset }

/-- `DOMNode.toggle_class`:
`self._classes.symmetric_difference_update(class_names)` then the
best-effort style update. -/
def toggle_class (node : ClassNode) (class_names : List String) : ClassNode :=
  class_update_styles { node with classes := symmDiff node.classes class_names.toFinset }

/-! ## Tree model (`walk_children`, `get_child`)

For traversal and child lookup a node is a finite tree value: its
identity fields plus the ordered list of child subtrees. -/

/-- The identity fields of a `DOMNode` (`_id`, `_name`, `_classes`). -/
structure NodeData where
  id : Option String
  name : Option String
  classes : Finset String
deriving DecidableEq

/-- A `DOMNode` together with the subtrees hanging off its ordered
`children` list. -/
inductive DOMTree where
  | mk (data : NodeData) (children : List DOMTree)

/-- The node's identity fields. -/
def DOMTree.data : DOMTree → NodeData
  | .mk d _ => d

/-- The node's ordered children. -/
def DOMTree.children : DOMTree → List DOMTree
  | .mk _ c => c

mutual
/-- Number of nodes in the subtree rooted here. -/
def DOMTree.size : DOMTree → Nat
  | .mk _ cs => 1 + sizeList cs

/-- Total number of nodes in a list of subtrees. -/
def sizeList : List DOMTree → Nat
  | [] => 0
  | t :: ts => t.size + sizeList ts
end

/-- Total number of nodes held in a stack of pending child lists. -/
def stackSize : List (List DOMTree) → Nat
  | [] => 0
  | l :: rest => sizeList l + stackSize rest

/-- The loop of `DOMNode.walk_children`: a stack of iterators over
children lists; the top iterator is advanced, an exhausted iterator is
popped, and a yielded node with children pushes an iterator over them. -/
def walkAux : List (List DOMTree) → List DOMTree
  | [] => []
  | [] :: stack => walkAux stack
  | (node :: rest) :: stack =>
      node :: walkAux
        (if node.children.isEmpty then rest :: stack
         else node.children :: rest :: stack)
termination_by stack => 2 * stackSize stack + stack.length
decreasing_by
  · simp only [stackSize, sizeList, List.length_cons]
    omega
  · cases node with
    | mk d cs =>
        cases cs with
        | nil =>
            simp [stackSize, sizeList, DOMTree.size, DOMTree.children]
        | cons c cs' =>
            simp [stackSize, sizeList, DOMTree.size, DOMTree.children]
            omega

/-- `DOMNode.walk_children`: yield `self` first when `with_self`, then
run the explicit-stack loop over the children. -/
def walk_children (node : DOMTree) (with_self : Bool) : List DOMTree :=
  if with_self then node :: walkAux [node.children]
  else walkAux [node.children]

mutual
/-- Depth-first pre-order sequence of a subtree: the node first, then its
children's subtrees in insertion order. -/
def preorder : DOMTree → List DOMTree
  | .mk d cs => .mk d cs :: preorderList cs

/-- Pre-order sequences of a list of subtrees, in order. -/
def preorderList : List DOMTree → List DOMTree
  | [] => []
  | t :: ts => preorder t ++ preorderList ts
end

/-- `d` is a proper descendant of `p`: reachable through one or more
child steps. -/
inductive Descendant : DOMTree → DOMTree → Prop
  | child {c p : DOMTree} : c ∈ p.children → Descendant c p
  | step {d c p : DOMTree} : Descendant d c → c ∈ p.children → Descendant d p

/-- `NoMatchingNodesError`, carrying the id that was not found. -/
structure NoMatchingNodes where
  missing : String
deriving DecidableEq

/-- `DOMNode.get_child`: return the first immediate child whose id equals
the given id; raise `NoMatchingNodesError` when no direct child matches. -/
def get_child (node : DOMTree) (id : String) : Except NoMatchingNodes DOMTree :=
  match node.children.find? (fun child => child.data.id == some id) with
  | some child => .ok child
  | none => .error ⟨id⟩

/-! ## Parent-chain model (`ancestors`, `css_path_nodes`, `rich_text_style`)

These read-only properties only follow `_parent` references, so a node is
modelled together with its chain of ancestors. -/

/-- An RGBA color. Channel arithmetic is exact (rationals). -/
structure Color where
  r : ℚ
  g : ℚ
  b : ℚ
  a : ℚ
deriving DecidableEq

/-- Modelled from the spec: `Color.__add__` (textual's `color.py` is not
under `src/`) composites the right color over the left one —
"accumulating background via alpha-compositing (each ancestor's
background is composited under the next)". Channels are linearly blended
by the over color's alpha. -/
def composite (under over : Color) : Color :=
  { r := under.r + (over.r - under.r) * over.a
    g := under.g + (over.g - under.g) * over.a
    b := under.b + (over.b - under.b) * over.a
    a := under.a }

/-- Modelled from the spec: the text-attribute part of a rich `Style`
(the `rich` library is an external collaborator); each attribute is
tri-state, `none` meaning "not set here". -/
structure TStyle where
  bold : Option Bool
  italic : Option Bool
deriving DecidableEq

/-- Modelled from the spec: rich `Style.__add__` — attributes set on the
right operand override the left's, unset ones fall through. -/
def tadd (s1 s2 : TStyle) : TStyle :=
  ⟨s2.bold.or s1.bold, s2.italic.or s1.italic⟩

/-- The style rules `rich_text_style` reads from a node: an optional
explicit background and color (`has_rule` = `isSome`) and the node's
text attributes. -/
structure NStyles where
  background : Option Color
  color : Option Color
  text_style : TStyle
deriving DecidableEq

/-- A node with its parent chain: either `_parent` is `None` (a root) or
it refers to another node. -/
inductive PNode where
  | root (styles : NStyles)
  | child (styles : NStyles) (parent : PNode)
deriving DecidableEq

/-- The node's style rules. -/
def PNode.styles : PNode → NStyles
  | .root s => s
  | .child s _ => s

/-- The `parent` property: the parent node or `None`. -/
def PNode.parent : PNode → Option PNode
  | .root _ => none
  | .child _ p => some p

/-- `DOMNode.ancestors`: self, then each successive parent until
`parent` is `None`. -/
def ancestors : PNode → List PNode
  | .root s => [.root s]
  | .child s p => .child s p :: ancestors p

/-- The accumulation loop of `DOMNode.css_path_nodes`: start from
`[self]` and append each parent while one remains. -/
def css_path_collect : PNode → List PNode
  | .root s => [.root s]
  | .child s p => .child s p :: css_path_collect p

/-- `DOMNode.css_path_nodes`: the accumulated self-to-root list,
reversed (`result[::-1]`), i.e. the path from the root to this node. -/
def css_path_nodes (node : PNode) : List PNode :=
  (css_path_collect node).reverse

/-- The rich `Style` that `rich_text_style` returns: a background color,
a foreground color and the combined text attributes. -/
structure RichStyle where
  bgcolor : Color
  color : Color
  text : TStyle
deriving DecidableEq

/-- The loop body of `rich_text_style`: composite the node's background
over the accumulator when set, overwrite the color when set, and combine
the text attributes. -/
def rts_step (acc : Color × Color × TStyle) (node : PNode) : Color × Color × TStyle :=
  ⟨(match node.styles.background with
    | some bg => composite acc.1 bg
    | none => acc.1),
   (match node.styles.color with
    | some c => c
    | none => acc.2.1),
   tadd acc.2.2 node.styles.text_style⟩

/-- `DOMNode.rich_text_style`: fold `rts_step` over
`reversed(self.ancestors)` (root-to-self order) starting from a fully
transparent black background, a transparent white color and an empty
style, then assemble the resulting `Style`. -/
def rich_text_style (node : PNode) : RichStyle :=
  let acc := (ancestors node).reverse.foldl rts_step
    (⟨0, 0, 0, 0⟩, ⟨255, 255, 255, 0⟩, ⟨none, none⟩)
  ⟨acc.1, acc.2.1, acc.2.2⟩

/-- Stated from the spec's words: the effective background is the
alpha-composite of the explicitly set backgrounds along the root-to-self
path, accumulated in that order. -/
def spec_background (node : PNode) : Color :=
  ((css_path_nodes node).filterMap (fun nd => nd.styles.background)).foldl
    composite ⟨0, 0, 0, 0⟩

/-- Stated from the spec's words: the effective foreground color is that
of the nearest node (including self) that explicitly sets one, searched
from self towards the root; transparent white if none does. -/
def spec_color (node : PNode) : Color :=
  match (ancestors node).find? (fun nd => nd.styles.color.isSome) with
  | some nd => nd.styles.color.getD ⟨255, 255, 255, 0⟩
  | none => ⟨255, 255, 255, 0⟩

/-- Stated from the spec's words: text attributes are combined along the
root-to-self chain. -/
def spec_text (node : PNode) : TStyle :=
  (css_path_nodes node).foldl (fun acc nd => tadd acc nd.styles.text_style)
    ⟨none, none⟩

/-! ## Button model (`Button.press`, `_start_active_affect`)

The button state the press path touches: its class set, the `disabled`
and `display` flags read by the guard, the timers it schedules and the
messages it posts.  Timer scheduling (`set_timer`) and message posting
(`post_message`) live in `MessagePump`, outside `src/`; modelled from the
spec, a timer is a delayed message recorded with its delay and action,
and posting appends to the outbound message list. -/

/-- The callback a button timer carries: `remove_class` of "-active". -/
inductive TimerAction where
  | removeActiveClass
deriving DecidableEq

/-- Modelled from the spec: a timer is "a delayed message posted to the
owning node's queue" — recorded here as its delay and its action. -/
structure Timer where
  delay : ℚ
  action : TimerAction
deriving DecidableEq

/-- The message `press` posts. -/
inductive BtnMessage where
  | pressed
deriving DecidableEq

/-- The state of a `Button` as seen by `press`. -/
structure ButtonState where
  classes : Finset String
  disabled : Bool
  display : Bool
  timers : List Timer
  posted : List BtnMessage
deriving DecidableEq

/-- `Button.ACTIVE_EFFECT_DURATION`: buttons keep the "-active" class
for 0.3 seconds after a click. -/
def ACTIVE_EFFECT_DURATION : ℚ := 3 / 10

/-- `add_class` as invoked on the button's own class set. -/
def btn_add_class (b : ButtonState) (name : String) : ButtonState :=
  { b with classes := b.classes ∪ {name} }

/-- `remove_class` as invoked on the button's own class set. -/
def btn_remove_class (b : ButtonState) (name : String) : ButtonState :=
  { b with classes := b.classes \ {name} }

/-- Modelled from the spec: `set_timer(delay, callback)` schedules a
delayed message carrying the callback. -/
def set_timer (b : ButtonState) (delay : ℚ) (action : TimerAction) : ButtonState :=
  { b with timers := b.timers ++ [⟨delay, action⟩] }

/-- Modelled from the spec: `post_message` appends to the node's
outbound messages and never blocks. -/
def post_message (b : ButtonState) (m : BtnMessage) : ButtonState :=
  { b with posted := b.posted ++ [m] }

/-- `Button._start_active_affect`: add the "-active" class and schedule
its removal after `ACTIVE_EFFECT_DURATION`. -/
def start_active_affect (b : ButtonState) : ButtonState :=
  set_timer (btn_add_class b "-active") ACTIVE_EFFECT_DURATION .removeActiveClass

/-- `Button.press`: return unchanged when disabled or not displayed;
otherwise start the active effect and post `Button.Pressed`. -/
def press (b : ButtonState) : ButtonState :=
  if b.disabled || !b.display then b
  else post_message (start_active_affect b) .pressed

/-- Processing a fired timer's message runs its callback. -/
def run_timer_action (b : ButtonState) : TimerAction → ButtonState
  | .removeActiveClass => btn_remove_class b "-active"

/-! ## Theorems -/

theorem class_update_styles_classes (n : ClassNode) :
    (class_update_styles n).classes = n.classes := by
  cases h : n.app <;> simp [class_update_styles, h]

theorem toggle_class_classes (node : ClassNode) (names : List String) :
    (toggle_class node names).classes = symmDiff node.classes names.toFinset := by
  rw [toggle_class, class_update_styles_classes]

/-- C2: for a node whose id is already set, any assignment fails with
`IdentityConflict` reporting the prior id and leaves the id unchanged;
for a node whose id is `None`, assignment stores the new id. -/
theorem claim_C2_id_set_once (n : NodeRec) (s : String) :
    (∀ cur, n.id = some cur →
      id_set n s = (some ⟨cur⟩, n) ∧ ((id_set n s).2).id = some cur) ∧
    (n.id = none → id_set n s = (none, { n with id := some s })) := by
  constructor
  · intro cur h
    simp [id_set, h]
  · intro h
    simp [id_set, h]

/-- Witness for C2 at concrete nodes: a node with id "a" rejects "b"
and keeps "a"; a fresh node accepts "b". -/
theorem claim_C2_witness :
    id_set ⟨some "a", none, []⟩ "b" = (some ⟨"a"⟩, ⟨some "a", none, []⟩) ∧
    id_set ⟨none, none, []⟩ "b" = (none, ⟨some "b", none, []⟩) :=
  ⟨((claim_C2_id_set_once ⟨some "a", none, []⟩ "b").1 "a" rfl).1,
   (claim_C2_id_set_once ⟨none, none, []⟩ "b").2 rfl⟩

/-- C4: the `display` setter stores "block"/"none" for a boolean,
stores a string from `VALID_DISPLAY`, and rejects any other string with
a `StyleValueError` naming the value and the allowed set while leaving
the styles unchanged; the `visible` setter behaves analogously with
"visible"/"hidden" and `VALID_VISIBILITY`. -/
theorem claim_C4_style_setters (st : StylesRec) (b : Bool) (s : String) :
    display_set st (.bool b) =
      (none, { st with display := if b then "block" else "none" }) ∧
    (s ∈ VALID_DISPLAY → display_set st (.str s) = (none, { st with display := s })) ∧
    (s ∉ VALID_DISPLAY →
      display_set st (.str s) = (some ⟨"display", s, VALID_DISPLAY⟩, st)) ∧
    visible_set st (.bool b) =
      (none, { st with visibility := if b then "visible" else "hidden" }) ∧
    (s ∈ VALID_VISIBILITY → visible_set st (.str s) = (none, { st with visibility := s })) ∧
    (s ∉ VALID_VISIBILITY →
      visible_set st (.str s) = (some ⟨"visibility", s, VALID_VISIBILITY⟩, st)) := by
  refine ⟨rfl, ?_, ?_, rfl, ?_, ?_⟩ <;> intro h <;> simp [display_set, visible_set, h]

/-- Witness for C4 at concrete values: "none" is accepted for display,
"flex" rejected with the allowed set; "hidden" accepted for visibility,
"poof" rejected. -/
theorem claim_C4_witness :
    display_set ⟨"block", "visible"⟩ (.str "none") = (none, ⟨"none", "visible"⟩) ∧
    display_set ⟨"block", "visible"⟩ (.str "flex") =
      (some ⟨"display", "flex", ["block", "none"]⟩, ⟨"block", "visible"⟩) ∧
    visible_set ⟨"block", "visible"⟩ (.str "hidden") = (none, ⟨"block", "hidden"⟩) ∧
    visible_set ⟨"block", "visible"⟩ (.str "poof") =
      (some ⟨"visibility", "poof", ["visible", "hidden"]⟩, ⟨"block", "visible"⟩) :=
  ⟨(claim_C4_style_setters ⟨"block", "visible"⟩ true "none").2.1 (by decide),
   (claim_C4_style_setters ⟨"block", "visible"⟩ true "flex").2.2.1 (by decide),
   (claim_C4_style_setters ⟨"block", "visible"⟩ true "hidden").2.2.2.2.1 (by decide),
   (claim_C4_style_setters ⟨"block", "visible"⟩ true "poof").2.2.2.2.2 (by decide)⟩

/-- C5: `add_class`, `remove_class` and `toggle_class` always perform
their set mutation (union, difference, symmetric difference); when no
application context is attached the style recomputation and repaint are
silently skipped — nothing but the class set changes and no error is
raised. -/
theorem claim_C5_class_mutation (node : ClassNode) (names : List String) :
    (add_class node names).classes = node.classes ∪ names.toFinset ∧
    (remove_class node names).classes = node.classes \ names.toFinset ∧
    (toggle_class node names).classes = symmDiff node.classes names.toFinset ∧
    (node.app = none →
      add_class node names = { node with classes := node.classes ∪ names.toFinset } ∧
      remove_class node names = { node with classes := node.classes \ names.toFinset } ∧
      toggle_class node names =
        { node with classes := symmDiff node.classes names.toFinset }) := by
  refine ⟨?_, ?_, ?_, fun h => ⟨?_, ?_, ?_⟩⟩
  · rw [add_class, class_update_styles_classes]
  · rw [remove_class, class_update_styles_classes]
  · rw [toggle_class, class_update_styles_classes]
  · simp [add_class, class_update_styles, h]
  · simp [remove_class, class_update_styles, h]
  · simp [toggle_class, class_update_styles, h]

/-- Witness for C5: on a detached node (`app = None`) `add_class`
mutates the class set and changes nothing else. -/
theorem claim_C5_witness :
    add_class ⟨{"x"}, none, 0⟩ ["a"] = ⟨{"x"} ∪ ["a"].toFinset, none, 0⟩ :=
  ((claim_C5_class_mutation ⟨{"x"}, none, 0⟩ ["a"]).2.2.2 rfl).1

/-- C6: toggling the same class names twice in succession restores the
original class set. -/
theorem claim_C6_toggle_involutive (node : ClassNode) (names : List String) :
    (toggle_class (toggle_class node names) names).classes = node.classes := by
  rw [toggle_class_classes, toggle_class_classes]
  exact symmDiff_symmDiff_cancel_right _ _

theorem update_parent_eq (d : Dom) (k : NodeId) (r : NodeRec) (n : NodeId)
    (hr : r.parent = (d k).parent) : ((d.update k r) n).parent = (d n).parent := by
  rw [Dom.update]
  split
  · rename_i h
    rw [h, hr]
  · rfl

theorem appendChild_parent (d : Dom) (p c n : NodeId) :
    ((appendChild d p c) n).parent = (d n).parent := by
  rw [appendChild]
  exact update_parent_eq _ _ _ _ rfl

theorem appendChild_id (d : Dom) (p c n : NodeId) :
    ((appendChild d p c) n).id = (d n).id := by
  rw [appendChild, Dom.update]
  split
  · rename_i h
    rw [h]
  · rfl

theorem foldl_appendChild_parent (nodes : List NodeId) (d : Dom) (p n : NodeId) :
    ((nodes.foldl (fun acc k => appendChild acc p k) d) n).parent = (d n).parent := by
  induction nodes generalizing d with
  | nil => rfl
  | cons x xs ih =>
      rw [List.foldl_cons, ih, appendChild_parent]

theorem foldl_appendChild_childList (nodes : List NodeId) (d : Dom) (p : NodeId) :
    ((nodes.foldl (fun acc k => appendChild acc p k) d) p).childList =
      (d p).childList ++ nodes := by
  induction nodes generalizing d with
  | nil => simp
  | cons x xs ih =>
      rw [List.foldl_cons, ih]
      simp [appendChild, Dom.update]

theorem id_set_parent (r : NodeRec) (s : String) :
    ((id_set r s).2).parent = r.parent := by
  cases h : r.id <;> simp [id_set, h]

theorem add_children_named_parent (named : List (String × NodeId)) (p : NodeId)
    (d : Dom) (n : NodeId) :
    ((add_children_named p named d).2 n).parent = (d n).parent := by
  induction named generalizing d with
  | nil => rfl
  | cons x rest ih =>
      obtain ⟨node_id, k⟩ := x
      rw [add_children_named]
      cases h : id_set ((appendChild d p k) k) node_id with
      | mk err r =>
          cases err with
          | none =>
              have hr : r.parent = ((appendChild d p k) k).parent := by
                have := id_set_parent ((appendChild d p k) k) node_id
                rw [h] at this
                exact this
              simp only []
              rw [ih, update_parent_eq _ _ _ _ hr, appendChild_parent]
          | some e =>
              simp only []
              rw [appendChild_parent]

/-- C1 as stated is false on the code: `add_children` appends the node
to the parent's children list but never sets the node's parent pointer
(`set_parent` is only called by `add_child`).  Starting from a heap of
fresh nodes, `add_children` on parent `0` with positional child `1`
leaves node `1`'s parent as `None`, not `0`. -/
theorem claim_C1_counterexample :
    ((add_children (fun _ => ⟨none, none, []⟩) 0 [1] []).2 0).childList = [1] ∧
    ((add_children (fun _ => ⟨none, none, []⟩) 0 [1] []).2 1).parent = none ∧
    ((add_children (fun _ => ⟨none, none, []⟩) 0 [1] []).2 1).parent ≠ some 0 := by
  refine ⟨rfl, rfl, ?_⟩
  decide

/-- C1 (amended): `add_child(c)` appends `c` to the parent's children
list and sets `c`'s parent pointer; `add_children` appends its nodes
(and assigns a keyword name as the node's id) but leaves every node's
parent pointer unchanged. -/
theorem claim_C1_amended (d : Dom) (p c : NodeId) (nodes : List NodeId)
    (named : List (String × NodeId)) :
    ((add_child d p c) p).childList = (d p).childList ++ [c] ∧
    ((add_child d p c) c).parent = some p ∧
    (∀ n : NodeId, ((add_children d p nodes named).2 n).parent = (d n).parent) ∧
    ((add_children d p nodes []).2 p).childList = (d p).childList ++ nodes ∧
    (∀ s n, (d n).id = none →
      ((add_children d p [] [(s, n)]).2 p).childList = (d p).childList ++ [n] ∧
      ((add_children d p [] [(s, n)]).2 n).id = some s) := by
  refine ⟨?_, ?_, ?_, ?_, ?_⟩
  · by_cases h : p = c <;>
      simp [add_child, appendChild, Dom.update, h]
  · simp [add_child, Dom.update]
  · intro n
    rw [add_children, add_children_named_parent, foldl_appendChild_parent]
  · rw [add_children]
    simp only [List.foldl_nil, add_children_named]
    exact foldl_appendChild_childList nodes d p
  · intro s n hn
    constructor
    · by_cases h : n = p
      · subst h
        simp [add_children, add_children_named, id_set, appendChild, Dom.update, hn]
      · simp [add_children, add_children_named, id_set, appendChild, Dom.update,
          hn, h, Ne.symm h]
    · by_cases h : n = p
      · subst h
        simp [add_children, add_children_named, id_set, appendChild, Dom.update, hn]
      · simp [add_children, add_children_named, id_set, appendChild, Dom.update,
          hn, h, Ne.symm h]

/-- Witness for C1 (amended) at a concrete heap: keyword-argument
`add_children` appends the fresh node and assigns the keyword name as
its id. -/
theorem claim_C1_witness :
    ((add_children (fun _ => ⟨none, none, []⟩) 0 [] [("submit", 1)]).2 0).childList
      = [1] ∧
    ((add_children (fun _ => ⟨none, none, []⟩) 0 [] [("submit", 1)]).2 1).id
      = some "submit" :=
  (claim_C1_amended (fun _ => ⟨none, none, []⟩) 0 0 [] []).2.2.2.2 "submit" 1 rfl

/-- C7: `get_child(id)` searches only the immediate children: it returns
the first direct child whose id matches, and raises the no-matching-node
error exactly when no direct child matches — whatever ids deeper
descendants carry. -/
theorem claim_C7_get_child (t : DOMTree) (i : String) :
    (∀ c, get_child t i = .ok c → c ∈ t.children ∧ c.data.id = some i) ∧
    (∀ pre c post, t.children = pre ++ c :: post → c.data.id = some i →
      (∀ x ∈ pre, x.data.id ≠ some i) → get_child t i = .ok c) ∧
    ((∀ c ∈ t.children, c.data.id ≠ some i) → get_child t i = .error ⟨i⟩) := by
  refine ⟨?_, ?_, ?_⟩
  · intro c h
    rw [get_child] at h
    cases hf : t.children.find? (fun child => child.data.id == some i) with
    | none =>
        rw [hf] at h
        exact absurd h (by simp)
    | some c' =>
        rw [hf] at h
        cases h
        refine ⟨List.mem_of_find?_eq_some hf, ?_⟩
        have := List.find?_some hf
        simpa using this
  · intro pre c post hsplit hc hpre
    rw [get_child, hsplit, List.find?_append]
    have h1 : pre.find? (fun child => child.data.id == some i) = none := by
      rw [List.find?_eq_none]
      intro x hx
      simp [hpre x hx]
    have h2 : (c :: post).find? (fun child => child.data.id == some i) = some c := by
      rw [List.find?_cons_of_pos]
      simp [hc]
    rw [h1, h2]
    rfl
  · intro hnone
    rw [get_child]
    have h1 : t.children.find? (fun child => child.data.id == some i) = none := by
      rw [List.find?_eq_none]
      intro x hx
      simp [hnone x hx]
    rw [h1]

/-- Witness for C7: a tree whose only child has no id while a grandchild
has id "x" still raises the no-matching-node error; and the first of two
children with id "y" is returned. -/
theorem claim_C7_witness :
    get_child (.mk ⟨none, none, ∅⟩
        [.mk ⟨none, none, ∅⟩ [.mk ⟨some "x", none, ∅⟩ []]]) "x"
      = .error ⟨"x"⟩ ∧
    get_child (.mk ⟨none, none, ∅⟩
        [.mk ⟨some "y", none, ∅⟩ [], .mk ⟨some "y", some "second", ∅⟩ []]) "y"
      = .ok (.mk ⟨some "y", none, ∅⟩ []) :=
  ⟨(claim_C7_get_child _ "x").2.2 (by
      intro c hc
      simp [DOMTree.children] at hc
      subst hc
      simp [DOMTree.data]),
   (claim_C7_get_child _ "y").2.1 [] (.mk ⟨some "y", none, ∅⟩ [])
      [.mk ⟨some "y", some "second", ∅⟩ []] rfl rfl (by simp)⟩

theorem css_path_collect_eq_ancestors (n : PNode) :
    css_path_collect n = ancestors n := by
  induction n with
  | root s => rfl
  | child s p ih =>
      rw [css_path_collect, ancestors, ih]

theorem ancestors_head (n : PNode) : (ancestors n).head? = some n := by
  cases n <;> rfl

theorem ancestors_ne_nil (n : PNode) : ancestors n ≠ [] := by
  cases n <;> simp [ancestors]

/-- C8: `ancestors` is self followed by each successive parent — it
starts at self, consecutive entries are linked by the parent pointer,
and it ends at a node with no parent; `css_path_nodes` is exactly the
reverse of that chain. -/
theorem claim_C8_ancestors_path (n : PNode) :
    (ancestors n).head? = some n ∧
    List.Chain' (fun a b => a.parent = some b) (ancestors n) ∧
    (∃ r, (ancestors n).getLast? = some r ∧ r.parent = none) ∧
    css_path_nodes n = (ancestors n).reverse := by
  refine ⟨ancestors_head n, ?_, ?_, ?_⟩
  · induction n with
    | root s => simp [ancestors]
    | child s p ih =>
        rw [ancestors, List.chain'_cons']
        refine ⟨?_, ih⟩
        intro b hb
        rw [ancestors_head] at hb
        cases hb
        rfl
  · induction n with
    | root s => exact ⟨.root s, rfl, rfl⟩
    | child s p ih =>
        obtain ⟨r, hr, hrp⟩ := ih
        refine ⟨r, ?_, hrp⟩
        rw [ancestors]
        cases hp : ancestors p with
        | nil => exact absurd hp (ancestors_ne_nil p)
        | cons q l =>
            rw [List.getLast?_cons_cons]
            rw [hp] at hr
            exact hr
  · rw [css_path_nodes, css_path_collect_eq_ancestors]

theorem rts_foldl_split (l : List PNode) (bg c : Color) (t : TStyle) :
    l.foldl rts_step (bg, c, t) =
      (l.foldl (fun acc nd =>
          match nd.styles.background with
          | some b => composite acc b
          | none => acc) bg,
       l.foldl (fun acc nd =>
          match nd.styles.color with
          | some v => v
          | none => acc) c,
       l.foldl (fun acc nd => tadd acc nd.styles.text_style) t) := by
  induction l generalizing bg c t with
  | nil => rfl
  | cons x xs ih =>
      rw [List.foldl_cons, List.foldl_cons, List.foldl_cons, List.foldl_cons]
      exact ih _ _ _

theorem bg_fold_filterMap (l : List PNode) (init : Color) :
    l.foldl (fun acc nd =>
        match nd.styles.background with
        | some b => composite acc b
        | none => acc) init =
      (l.filterMap (fun nd => nd.styles.background)).foldl composite init := by
  induction l generalizing init with
  | nil => rfl
  | cons x xs ih =>
      cases h : x.styles.background <;>
        simp [List.foldl_cons, List.filterMap_cons, h, ih]

theorem color_fold_find (l : List PNode) (init : Color) :
    l.foldl (fun acc nd =>
        match nd.styles.color with
        | some v => v
        | none => acc) init =
      (match l.reverse.find? (fun nd => nd.styles.color.isSome) with
       | some nd => nd.styles.color.getD ⟨255, 255, 255, 0⟩
       | none => init) := by
  induction l generalizing init with
  | nil => rfl
  | cons x xs ih =>
      rw [List.foldl_cons, ih, List.reverse_cons, List.find?_append]
      cases hf : xs.reverse.find? (fun nd => nd.styles.color.isSome) with
      | some nd => rfl
      | none =>
          cases hx : x.styles.color <;> simp [List.find?, hx, Option.isSome]

/-- C9: `rich_text_style` walks the ancestor chain root-to-self; the
resulting background is the alpha-composite of the explicitly set
backgrounds accumulated in that order, the foreground color is that of
the nearest node (including self) that explicitly sets one, and the
text attributes are combined along the chain. -/
theorem claim_C9_rich_text_style (n : PNode) :
    rich_text_style n = ⟨spec_background n, spec_color n, spec_text n⟩ := by
  rw [rich_text_style, spec_background, spec_color, spec_text, css_path_nodes,
    css_path_collect_eq_ancestors, rts_foldl_split, bg_fold_filterMap,
    color_fold_find, List.reverse_reverse]

theorem preorder_eq (t : DOMTree) : preorder t = t :: preorderList t.children := by
  cases t
  rfl

mutual
theorem preorder_length : ∀ t : DOMTree, (preorder t).length = t.size
  | .mk d cs => by
      rw [preorder, DOMTree.size, List.length_cons, preorderList_length cs]
      omega
theorem preorderList_length : ∀ l : List DOMTree, (preorderList l).length = sizeList l
  | [] => by rfl
  | t :: ts => by
      rw [preorderList, sizeList, List.length_append, preorder_length t,
        preorderList_length ts]
end

theorem preorderList_eq_join : ∀ l : List DOMTree,
    preorderList l = (l.map preorder).flatten
  | [] => rfl
  | t :: ts => by
      rw [preorderList, List.map_cons, List.flatten_cons, preorderList_eq_join ts]

theorem walkAux_join (stack : List (List DOMTree)) :
    walkAux stack = (stack.map preorderList).flatten := by
  induction stack using walkAux.induct with
  | case1 => simp [walkAux]
  | case2 stack ih =>
      rw [walkAux, ih]
      simp [preorderList]
  | case3 node rest stack ih =>
      rw [walkAux]
      cases node with
      | mk d cs =>
          cases cs with
          | nil =>
              simp only [DOMTree.children, List.isEmpty_nil, dite_true, if_true] at ih ⊢
              rw [ih]
              simp [preorderList, preorder]
          | cons c cs' =>
              simp only [DOMTree.children, List.isEmpty_cons, dite_false, if_false,
                Bool.false_eq_true] at ih ⊢
              rw [ih]
              simp [preorderList, preorder]

theorem walk_children_true_eq (t : DOMTree) : walk_children t true = preorder t := by
  rw [walk_children, preorder_eq]
  simp [walkAux_join]

theorem mem_preorder_self (t : DOMTree) : t ∈ preorder t := by
  rw [preorder_eq]
  exact List.mem_cons_self t _

theorem mem_preorderList_of_mem_preorder :
    ∀ (l : List DOMTree) (c x : DOMTree), c ∈ l → x ∈ preorder c →
      x ∈ preorderList l
  | t :: ts, c, x, hc, hx => by
      rw [preorderList]
      rcases List.mem_cons.mp hc with rfl | h2
      · exact List.mem_append_left _ hx
      · exact List.mem_append_right _ (mem_preorderList_of_mem_preorder ts c x h2 hx)

theorem mem_preorderList_of_descendant {d p : DOMTree} (h : Descendant d p) :
    d ∈ preorderList p.children := by
  induction h with
  | child hc =>
      exact mem_preorderList_of_mem_preorder _ _ _ hc (mem_preorder_self _)
  | step hdc hc ih =>
      exact mem_preorderList_of_mem_preorder _ _ _ hc
        (by rw [preorder_eq]; exact List.mem_cons_of_mem _ ih)

mutual
theorem mem_preorder_cases : ∀ (t s : DOMTree), s ∈ preorder t →
    s = t ∨ Descendant s t
  | .mk d cs, s, h => by
      rw [preorder] at h
      rcases List.mem_cons.mp h with h1 | h2
      · exact Or.inl h1
      · rcases mem_preorderList_cases cs s h2 with ⟨c, hc, hsc⟩
        rcases hsc with rfl | hd
        · exact Or.inr (Descendant.child (show s ∈ (DOMTree.mk d cs).children from hc))
        · exact Or.inr (Descendant.step hd (show c ∈ (DOMTree.mk d cs).children from hc))
theorem mem_preorderList_cases : ∀ (l : List DOMTree) (s : DOMTree),
    s ∈ preorderList l → ∃ c ∈ l, s = c ∨ Descendant s c
  | [], s, h => by
      rw [preorderList] at h
      exact absurd h (List.not_mem_nil s)
  | t :: ts, s, h => by
      rw [preorderList] at h
      rcases List.mem_append.mp h with h1 | h2
      · exact ⟨t, List.mem_cons_self t ts, mem_preorder_cases t s h1⟩
      · rcases mem_preorderList_cases ts s h2 with ⟨c, hc, hsc⟩
        exact ⟨c, List.mem_cons_of_mem _ hc, hsc⟩
end

theorem preorder_sublist_of_mem :
    ∀ (l : List DOMTree) (t : DOMTree), t ∈ l →
      List.Sublist (preorder t) (preorderList l)
  | t' :: ts, t, h => by
      rw [preorderList]
      rcases List.mem_cons.mp h with rfl | h2
      · exact List.sublist_append_left _ _
      · exact (preorder_sublist_of_mem ts t h2).trans (List.sublist_append_right _ _)

theorem preorder_sublist_of_mem_children {c p : DOMTree} (hc : c ∈ p.children) :
    List.Sublist (preorder c) (preorder p) := by
  refine (preorder_sublist_of_mem _ _ hc).trans ?_
  rw [preorder_eq p]
  exact List.sublist_cons_self _ _

theorem descendant_sublist {d p : DOMTree} (h : Descendant d p) :
    List.Sublist (preorder d) (preorder p) := by
  induction h with
  | child hc => exact preorder_sublist_of_mem_children hc
  | step hdc hc ih => exact ih.trans (preorder_sublist_of_mem_children hc)

theorem pair_sublist_of_descendant {p d : DOMTree} (h : Descendant d p) :
    List.Sublist [p, d] (preorder p) := by
  rw [preorder_eq]
  refine List.Sublist.cons₂ p ?_
  rw [List.singleton_sublist]
  exact mem_preorderList_of_descendant h

/-- C3: `walk_children(with_self=True)` is exactly the depth-first
pre-order sequence: self first, then the children's subtrees in
insertion order; it has one entry per node of the subtree, its members
are exactly the subtree's nodes, and every node appears strictly before
each of its descendants. -/
theorem claim_C3_walk_children (t : DOMTree) :
    walk_children t true = preorder t ∧
    (walk_children t true).head? = some t ∧
    walk_children t true = t :: (t.children.map preorder).flatten ∧
    (walk_children t true).length = t.size ∧
    (∀ s, s ∈ walk_children t true ↔ (s = t ∨ Descendant s t)) ∧
    (∀ p d, (p = t ∨ Descendant p t) → Descendant d p →
      List.Sublist [p, d] (walk_children t true)) := by
  refine ⟨walk_children_true_eq t, ?_, ?_, ?_, ?_, ?_⟩
  · rw [walk_children_true_eq, preorder_eq]
    rfl
  · rw [walk_children_true_eq, preorder_eq, preorderList_eq_join]
  · rw [walk_children_true_eq, preorder_length]
  · intro s
    rw [walk_children_true_eq]
    constructor
    · exact mem_preorder_cases t s
    · rintro (rfl | hd)
      · exact mem_preorder_self s
      · rw [preorder_eq]
        exact List.mem_cons_of_mem _ (mem_preorderList_of_descendant hd)
  · intro p d hp hd
    rw [walk_children_true_eq]
    rcases hp with rfl | hp
    · exact pair_sublist_of_descendant hd
    · exact (pair_sublist_of_descendant hd).trans (descendant_sublist hp)

/-- Witness for C3 on a three-node chain: the middle node appears
strictly before its child in the walk. -/
theorem claim_C3_witness :
    List.Sublist
      [DOMTree.mk ⟨some "b", none, ∅⟩ [.mk ⟨some "c", none, ∅⟩ []],
       DOMTree.mk ⟨some "c", none, ∅⟩ []]
      (walk_children
        (.mk ⟨some "a", none, ∅⟩
          [.mk ⟨some "b", none, ∅⟩ [.mk ⟨some "c", none, ∅⟩ []]]) true) :=
  (claim_C3_walk_children _).2.2.2.2.2
    (DOMTree.mk ⟨some "b", none, ∅⟩ [.mk ⟨some "c", none, ∅⟩ []])
    (DOMTree.mk ⟨some "c", none, ∅⟩ [])
    (Or.inr (Descendant.child (by simp [DOMTree.children])))
    (Descendant.child (by simp [DOMTree.children]))

/-- C10: pressing an enabled, displayed button immediately adds the
"-active" class, schedules a timer for exactly
`ACTIVE_EFFECT_DURATION = 0.3` whose action removes "-active", and
posts `Pressed`; processing that timer's message leaves "-active"
absent.  Pressing a disabled or non-displayed button changes nothing:
no class, no timer, no message. -/
theorem claim_C10_button_press (b : ButtonState) :
    (b.disabled = false → b.display = true →
      "-active" ∈ (press b).classes ∧
      (press b).classes = b.classes ∪ {"-active"} ∧
      (press b).timers = b.timers ++ [⟨ACTIVE_EFFECT_DURATION, .removeActiveClass⟩] ∧
      ACTIVE_EFFECT_DURATION = 3 / 10 ∧
      (press b).posted = b.posted ++ [.pressed] ∧
      "-active" ∉ (run_timer_action (press b) .removeActiveClass).classes ∧
      (run_timer_action (press b) .removeActiveClass).classes
        = b.classes \ {"-active"}) ∧
    ((b.disabled = true ∨ b.display = false) → press b = b) := by
  constructor
  · intro hd hdisp
    have hguard : (b.disabled || !b.display) = false := by
      rw [hd, hdisp]
      rfl
    rw [press, hguard]
    simp only [Bool.false_eq_true, if_false]
    refine ⟨?_, ?_, ?_, rfl, ?_, ?_, ?_⟩ <;>
      simp [post_message, set_timer, start_active_affect, btn_add_class,
        btn_remove_class, run_timer_action, Finset.union_sdiff_distrib]
  · intro h
    rcases h with h | h <;> simp [press, h]

/-- Witness for C10: a fresh enabled button gains "-active" and the
0.3-delay timer; a disabled button is returned unchanged. -/
theorem claim_C10_witness :
    "-active" ∈ (press ⟨∅, false, true, [], []⟩).classes ∧
    (press ⟨∅, false, true, [], []⟩).timers = [⟨3 / 10, .removeActiveClass⟩] ∧
    press ⟨∅, true, true, [], []⟩ = ⟨∅, true, true, [], []⟩ :=
  ⟨((claim_C10_button_press ⟨∅, false, true, [], []⟩).1 rfl rfl).1,
   ((claim_C10_button_press ⟨∅, false, true, [], []⟩).1 rfl rfl).2.2.1,
   (claim_C10_button_press ⟨∅, true, true, [], []⟩).2 (Or.inl rfl)⟩

end Textual
